import Mathlib

/-!
Verification of the simulation engine of gh-space-shooter.

The development shallowly embeds the engine sources:
  constants.py, game/game_state.py, game/animator.py,
  game/strategies/random_strategy.py, game/drawables/ship.py.
Python floats are modelled as rationals; the constants 0.25 and 0.15 used by
the engine are the only non-integers, and every claim settled here depends
only on order comparisons that are symbolic in the step size, not on binary
floating-point rounding.  Python lists are modelled as Lean lists; removal of
an object from a list (list.remove with default identity equality) is
modelled as removal at the index where the loop found that object.
-/

namespace SpaceShooter

/-! ## constants.py -/

def NUM_WEEKS : Nat := 52
def NUM_DAYS : Nat := 7
/-- SHIP_POSITION_Y = NUM_DAYS + 3: the ship travels just below the grid. -/
def SHIP_POSITION_Y : Nat := NUM_DAYS + 3
/-- SHIP_SPEED = 0.25 cells per frame. -/
def SHIP_SPEED : ℚ := 0.25
/-- BULLET_SPEED = 0.15 cells per frame. -/
def BULLET_SPEED : ℚ := 0.15
/-- SHIP_SHOOT_COOLDOWN_FRAMES = 8 frames between ship shots. -/
def SHIP_SHOOT_COOLDOWN_FRAMES : Nat := 8

/-! ## Entities (game/game_state.py) -/

/-- Enemy: a target at grid cell (x, y) with the given health (game_state.py line 34). -/
structure Enemy where
  x : ℤ
  y : ℤ
  health : ℤ
deriving DecidableEq, Repr

/-- Bullet: column x is fixed at creation; y starts at SHIP_POSITION_Y - 1 and
decreases (game_state.py line 75). -/
structure Bullet where
  x : ℤ
  y : ℚ
deriving DecidableEq, Repr

/-- Ship as defined in game_state.py line 119: continuous position x, integer
target, and no cooldown field at all.  This is the variant GameState actually
instantiates. -/
structure Ship where
  x : ℚ
  target_x : ℚ
deriving DecidableEq, Repr

/-- Ship.move_to: store the new target position; no instant movement. -/
def Ship.move_to (s : Ship) (x : ℤ) : Ship :=
  { s with target_x := (x : ℚ) }

/-- Ship.is_moving: x differs from target_x. -/
def Ship.is_moving (s : Ship) : Bool :=
  decide (s.x ≠ s.target_x)

/-- Ship.animate (game_state.py line 141): step toward target_x by SHIP_SPEED,
clamping at the target with min and max. -/
def Ship.animate (s : Ship) : Ship :=
  if s.x < s.target_x then { s with x := min (s.x + SHIP_SPEED) s.target_x }
  else if s.target_x < s.x then { s with x := max (s.x - SHIP_SPEED) s.target_x }
  else s

/-- The second ship variant, from game/drawables/ship.py: it carries a
shoot_cooldown and a can_shoot query.  Nothing in the engine constructs it or
calls can_shoot; it is embedded because the cooldown claim cites it. -/
structure DrawablesShip where
  x : ℚ
  target_x : ℚ
  shoot_cooldown : ℤ
deriving DecidableEq, Repr

/-- DrawablesShip.can_shoot (drawables/ship.py line 38): cooldown equals 0. -/
def DrawablesShip.can_shoot (s : DrawablesShip) : Bool :=
  decide (s.shoot_cooldown = 0)

/-- DrawablesShip.animate (drawables/ship.py line 42): move toward the target
and decrement a positive cooldown. -/
def DrawablesShip.animate (s : DrawablesShip) : DrawablesShip :=
  let s1 :=
    if s.x < s.target_x then { s with x := min (s.x + SHIP_SPEED) s.target_x }
    else if s.target_x < s.x then { s with x := max (s.x - SHIP_SPEED) s.target_x }
    else s
  if 0 < s1.shoot_cooldown then { s1 with shoot_cooldown := s1.shoot_cooldown - 1 } else s1

/-! ## GameState (game/game_state.py line 164) -/

/-- The simulation state: the single ship plus the live enemy and bullet lists. -/
structure GameState where
  ship : Ship
  enemies : List Enemy
  bullets : List Bullet
deriving DecidableEq, Repr

/-- Python int() on a rational: truncation toward zero, as applied to ship.x
in GameState.shoot. -/
def ratTrunc (q : ℚ) : ℤ :=
  Int.tdiv q.num (q.den : ℤ)

/-- Enemy initialization (game_state.py line 182, inner loop over days):
one enemy per day with level above 0, at (week index, day index), health =
level. -/
def initDays (wi : ℤ) : ℤ → List ℤ → List Enemy
  | _, [] => []
  | di, level :: rest =>
      (if level ≤ 0 then [] else [⟨wi, di, level⟩]) ++ initDays wi (di + 1) rest

/-- Enemy initialization (game_state.py line 182, outer loop over weeks). -/
def initEnemies : ℤ → List (List ℤ) → List Enemy
  | _, [] => []
  | wi, days :: rest => initDays wi 0 days ++ initEnemies (wi + 1) rest

/-- A contribution grid: per week, the list of day levels. -/
abbrev Grid : Type := List (List ℤ)

/-- GameState construction (game_state.py line 167): ship starts at x = 25,
enemies come from the grid, no bullets. -/
def GameState.init (weeks : Grid) : GameState :=
  { ship := { x := 25, target_x := 25 }
    enemies := initEnemies 0 weeks
    bullets := [] }

/-- GameState.shoot (game_state.py line 193): unconditionally append a bullet
at int(ship.x); no cooldown is consulted or reset anywhere. -/
def GameState.shoot (g : GameState) : GameState :=
  { g with bullets := g.bullets ++ [{ x := ratTrunc g.ship.x, y := (SHIP_POSITION_Y : ℚ) - 1 }] }

/-- GameState.is_complete: no live enemies remain. -/
def GameState.is_complete (g : GameState) : Bool :=
  g.enemies.isEmpty

/-- GameState.can_take_action: the ship is not moving. -/
def GameState.can_take_action (g : GameState) : Bool :=
  !(Ship.is_moving g.ship)

/-- First index of a list element satisfying a predicate, mirroring the
search loop in Bullet._check_collision. -/
def find_index (p : α → Bool) : List α → Option ℕ
  | [] => none
  | a :: l => if p a then some 0 else (find_index p l).map (· + 1)

/-- The collision test of Bullet._check_collision (game_state.py line 94):
the enemy column equals the bullet column and the enemy row is at or past the
bullet row. -/
def qualifies (b : Bullet) (e : Enemy) : Bool :=
  decide (e.x = b.x) && decide (b.y ≤ (e.y : ℚ))

/-- Bullet._check_collision (game_state.py line 91): the first enemy, in list
order, that qualifies.  The index stands for the object identity the Python
code returns. -/
def check_collision (b : Bullet) (es : List Enemy) : Option ℕ :=
  find_index (qualifies b) es

/-- Enemy.take_damage (game_state.py line 52) applied to the enemy at index i:
health drops by 1; at 0 or below the enemy removes itself from the list. -/
def take_damage (es : List Enemy) (i : ℕ) : List Enemy :=
  match es.get? i with
  | none => es
  | some e =>
      if e.health - 1 ≤ 0 then es.eraseIdx i
      else es.set i { e with health := e.health - 1 }

/-- The bullet phase of GameState.animate (game_state.py line 213): Python
iterates over the live bullets list while Bullet.animate may remove the
current bullet from that same list.  After such a removal the list shifts
left under the iterator, so the bullet that followed the removed one is
skipped for this frame: it stays in the list but is not moved.  Each
processed bullet first moves by BULLET_SPEED, then damages the first
colliding enemy and removes itself. -/
def animateBullets : List Bullet → List Enemy → List Bullet × List Enemy
  | [], es => ([], es)
  | b :: rest, es =>
      let b1 : Bullet := { b with y := b.y - BULLET_SPEED }
      match check_collision b1 es with
      | none =>
          let r := animateBullets rest es
          (b1 :: r.1, r.2)
      | some i =>
          let es1 := take_damage es i
          match rest with
          | [] => ([], es1)
          | c :: rest2 =>
              let r := animateBullets rest2 es1
              (c :: r.1, r.2)

/-- GameState.animate (game_state.py line 208): ship moves, enemies are
no-ops, bullets run through animateBullets. -/
def GameState.animate (g : GameState) : GameState :=
  let s1 := Ship.animate g.ship
  let be := animateBullets g.bullets g.enemies
  { ship := s1, enemies := be.2, bullets := be.1 }

/-- Weaker es2 es1: es2 is obtained from es1 by deleting some enemies and
lowering the health of others, preserving positions and relative order.  This
is the shape of every enemy-list transition the engine performs after
initialization: no enemy is ever created and no health ever increases. -/
inductive Weaker : List Enemy → List Enemy → Prop
  | nil : Weaker [] []
  | keep {e' e : Enemy} {t' t : List Enemy} :
      e'.x = e.x → e'.y = e.y → e'.health ≤ e.health → Weaker t' t →
      Weaker (e' :: t') (e :: t)
  | drop {e : Enemy} {t' t : List Enemy} : Weaker t' t → Weaker t' (e :: t)

/-- Number of frames after which the ship position provably equals its
target: the distance divided by SHIP_SPEED, rounded up. -/
def shipFrames (s : Ship) : ℕ :=
  (⌈|s.target_x - s.x| / SHIP_SPEED⌉).toNat

/-- The strict order in which _initialize_enemies creates enemies: the outer
loop walks week indices (columns) upward and the inner loop walks day indices
(rows) upward, so creation order is lexicographic on (x, y). -/
def colMajorLt (a b : Enemy) : Prop :=
  a.x < b.x ∨ (a.x = b.x ∧ a.y < b.y)

instance colMajorLt.instDecidableRel : DecidableRel colMajorLt := fun a b => by
  unfold colMajorLt
  infer_instance

/-! ## Strategies and the Drive Loop (game/animator.py and game/strategies/) -/

/-- Action.  The file strategies/base_strategy.py is not among the sources;
modelled from the spec (section 4.2): an action is a target column plus a
fire flag.  The animator reads the fields as action.week and action.shoot. -/
structure Action where
  week : ℤ
  shoot : Bool
deriving DecidableEq, Repr

/-- Failure modes a drive-loop run can surface: the AttributeError raised by
the random-strategy path, or exhaustion of the fuel bound of the embedding. -/
inductive PyErr
  | attributeError
  | fuelOut
deriving DecidableEq, Repr

/-- Level of cell (week wi, day di) of a grid, 0 outside the grid. -/
def gridLevel (weeks : Grid) (wi di : ℕ) : ℤ :=
  (weeks.getD wi []).getD di 0

/-- Modelled from the spec: ColumnStrategy (strategies/column_strategy.py is
not under src).  Spec section 4.2: visits each column left-to-right once; for
a column containing targets, emits, for every target in that column ordered
by proximity to the vehicle (largest row first), as many fire actions as that
target health, while stationary.  The plan is fixed, computed from the
initial grid. -/
def columnPlan (weeks : Grid) : List Action :=
  ((List.range NUM_WEEKS).map (fun wi =>
    (⟨Int.ofNat wi, false⟩ : Action) ::
      (((List.range NUM_DAYS).filter (fun di => decide (0 < gridLevel weeks wi di))).reverse.map
        (fun di => List.replicate (gridLevel weeks wi di).toNat (⟨Int.ofNat wi, true⟩ : Action))).flatten)).flatten

/-- Modelled from the spec: RowStrategy (strategies/row_strategy.py is not
under src).  Spec section 4.2: analogous to the column scan but the outer
loop is the row; within a row band every column is visited once in order. -/
def rowPlan (weeks : Grid) : List Action :=
  ((List.range NUM_DAYS).map (fun di =>
    ((List.range NUM_WEEKS).map (fun wi =>
      (⟨Int.ofNat wi, false⟩ : Action) ::
        List.replicate (gridLevel weeks wi di).toNat (⟨Int.ofNat wi, true⟩ : Action))).flatten)).flatten

/-- Python list(set(...)) over enemy columns (random_strategy.py line 34).
Set iteration order is unspecified in Python; the embedding keeps first
occurrences, and no result below depends on the order, only on membership. -/
def pySet (l : List ℤ) : List ℤ :=
  l.foldl (fun acc x => if x ∈ acc then acc else acc ++ [x]) []

def columns_with_enemies (gs : GameState) : List ℤ :=
  pySet (gs.enemies.map Enemy.x)

/-- Python max(enemies_in_column, key=lambda e: e.y) (random_strategy.py line
38): scans left to right keeping the first element with the largest key. -/
def maxByY (e0 : Enemy) : List Enemy → Enemy :=
  List.foldl (fun best e => if best.y < e.y then e else best) e0

/-- One iteration of the generator body of RandomStrategy.generate_actions
(random_strategy.py lines 33-41) applied to a live GameState, which is the
argument type its signature declares: pick the column given by the oracle
index i into the column list (standing for random.choice), collect the
enemies of that column, take the bottom-most one, and emit its health in fire
actions. -/
def randomBatch (gs : GameState) (i : ℕ) : List Action :=
  match columns_with_enemies gs with
  | [] => []
  | c0 :: rest =>
      match gs.enemies.filter
          (fun e => decide (e.x = (c0 :: rest).getD (i % (c0 :: rest).length) c0)) with
      | [] => []
      | e0 :: es =>
          List.replicate ((maxByY e0 es).health).toNat
            ⟨(c0 :: rest).getD (i % (c0 :: rest).length) c0, true⟩

/-- Output of a completed drive-loop run: final state, the emitted frame
snapshots (spec section 6: a snapshot is the ship position plus the live
enemy and bullet sets, exactly the GameState record), and the number of fire
actions consumed. -/
structure RunResult where
  final : GameState
  frames : List GameState
  fired : ℕ
deriving Repr

/-- The frame-wait loop of _generate_frames (animator.py line 82): while the
ship is still moving, animate and emit a frame. -/
def waitLoop : ℕ → GameState → Except PyErr (GameState × List GameState)
  | 0, g => if g.can_take_action then .ok (g, []) else .error .fuelOut
  | fuel + 1, g =>
      if g.can_take_action then .ok (g, [])
      else
        match waitLoop fuel (GameState.animate g) with
        | .error e => .error e
        | .ok (gf, fs) => .ok (gf, GameState.animate g :: fs)

/-- The action loop of _generate_frames (animator.py lines 80-89): per action,
request the move, wait until the ship can act, then on a fire action shoot,
animate once and emit a frame. -/
def runActions : ℕ → List Action → GameState → Except PyErr (GameState × List GameState × ℕ)
  | _, [], g => .ok (g, [], 0)
  | fuel, a :: rest, g =>
      match waitLoop fuel { g with ship := g.ship.move_to a.week } with
      | .error e => .error e
      | .ok (g2, fs1) =>
          let step : GameState × List GameState × ℕ :=
            if a.shoot then
              (GameState.animate (GameState.shoot g2), [GameState.animate (GameState.shoot g2)], 1)
            else (g2, [], 0)
          match runActions fuel rest step.1 with
          | .error e => .error e
          | .ok (gf, fs3, n) => .ok (gf, fs1 ++ step.2.1 ++ fs3, step.2.2 + n)

/-- The completion loop of _generate_frames (animator.py line 92): after the
actions are exhausted, animate without emitting frames until complete. -/
def finishLoop : ℕ → GameState → Except PyErr GameState
  | 0, g => if g.is_complete then .ok g else .error .fuelOut
  | fuel + 1, g => if g.is_complete then .ok g else finishLoop fuel (GameState.animate g)

/-- A full run of _generate_frames over a fixed action plan: initial frame
first (line 77), then the action loop, the completion loop, and five
trailing copies of the final frame (line 94). -/
def runPlan (fuel : ℕ) (plan : List Action) (weeks : Grid) : Except PyErr RunResult :=
  match runActions fuel plan (GameState.init weeks) with
  | .error e => .error e
  | .ok (g1, fs, n) =>
      match finishLoop fuel g1 with
      | .error e => .error e
      | .ok g2 => .ok ⟨g2, GameState.init weeks :: fs ++ List.replicate 5 g2, n⟩

/-- The three built-in strategies. -/
inductive StratKind
  | column
  | row
  | rand
deriving DecidableEq, Repr

/-- The drive loop of Animator._generate_frames for each built-in strategy.
For ColumnStrategy and RowStrategy the consumed action sequence is the fixed
plan computed from the grid (those strategy files are not under src and their
plans are modelled from the spec).  For RandomStrategy the sources are
authoritative: generate_gif passes self.contribution_data to generate_actions
(animator.py line 80), while the generator body evaluates game_state.enemies
on that argument (random_strategy.py line 33); the contribution grid is a
mapping of weeks, days and levels (spec section 6) with no enemies attribute,
so the first resume of the lazy generator raises AttributeError and the run
aborts before any action is produced.  The rng parameter stands for the
stream of indices random.choice would draw; the aborted run never consults
it. -/
def runAnimator (kind : StratKind) (fuel : ℕ) (weeks : Grid) (rng : ℕ → ℕ) :
    Except PyErr RunResult :=
  match kind with
  | .column => runPlan fuel (columnPlan weeks) weeks
  | .row => runPlan fuel (rowPlan weeks) weeks
  | .rand => .error .attributeError

/-- A valid contribution grid: 52 weeks of 7 day levels, each level in [0,4]. -/
def validGrid (weeks : Grid) : Prop :=
  weeks.length = NUM_WEEKS ∧ ∀ w ∈ weeks, w.length = NUM_DAYS ∧ ∀ l ∈ w, 0 ≤ l ∧ l ≤ 4

instance validGrid.instDecidable (weeks : Grid) : Decidable (validGrid weeks) := by
  unfold validGrid
  infer_instance

/-- A valid grid with a single nonzero cell: level 1 at week 0, day 0. -/
def grid1 : Grid :=
  (1 :: List.replicate 6 0) :: List.replicate 51 (List.replicate 7 0)

/-- A valid grid with a single nonzero cell: level 2 at week 1, day 3. -/
def grid2 : Grid :=
  List.replicate 7 0 :: (0 :: 0 :: 0 :: 2 :: 0 :: 0 :: [0]) ::
    List.replicate 50 (List.replicate 7 0)

/-- A concrete oracle stream for witnesses. -/
def rngZero : ℕ → ℕ := fun _ => 0

/-- A state exhibiting the iteration bug of GameState.animate: one target at
(0, 6) with health 1, a first bullet at column 0 row 6.1 about to collide,
and a second bullet at column 5 row 8. -/
def skipState : GameState := ⟨⟨25, 25⟩, [⟨0, 6, 1⟩], [⟨0, 6.1⟩, ⟨5, 8⟩]⟩

/-- Rounding to the nearest integer, following the words of the claim and of
the spec (a projectile is created at the rounded current column).  Written
as a second, spec-side definition to compare with the source-side ratTrunc. -/
def specRound (q : ℚ) : ℤ := ⌊q + 1 / 2⌋

/-- A state whose ship sits mid-move at x = 24.75. -/
def midMoveState : GameState := ⟨⟨24.75, 20⟩, [], []⟩

/-! ## Unfolding lemmas for the bullet phase -/

theorem animateBullets_nil (es : List Enemy) : animateBullets [] es = ([], es) := rfl

theorem animateBullets_cons_none (b : Bullet) (rest : List Bullet) (es : List Enemy)
    (h : check_collision { b with y := b.y - BULLET_SPEED } es = none) :
    animateBullets (b :: rest) es =
      ({ b with y := b.y - BULLET_SPEED } :: (animateBullets rest es).1,
       (animateBullets rest es).2) := by
  simp only [animateBullets, h]

theorem animateBullets_hit_last (b : Bullet) (es : List Enemy) (i : ℕ)
    (h : check_collision { b with y := b.y - BULLET_SPEED } es = some i) :
    animateBullets [b] es = ([], take_damage es i) := by
  simp only [animateBullets, h]

theorem animateBullets_hit_skip (b c : Bullet) (rest2 : List Bullet) (es : List Enemy) (i : ℕ)
    (h : check_collision { b with y := b.y - BULLET_SPEED } es = some i) :
    animateBullets (b :: c :: rest2) es =
      (c :: (animateBullets rest2 (take_damage es i)).1,
       (animateBullets rest2 (take_damage es i)).2) := by
  simp only [animateBullets, h]

/-- Every bullet that survives an animate call keeps the column of a bullet
that was live before the call: the bullet phase never changes the x field. -/
theorem animateBullets_columns (bs : List Bullet) (es : List Enemy) :
    ∀ b' ∈ (animateBullets bs es).1, ∃ b ∈ bs, b'.x = b.x := by
  induction bs, es using animateBullets.induct with
  | case1 es =>
      intro b' hb'
      simp [animateBullets] at hb'
  | case2 b rest es b1 hnone ih =>
      intro b' hb'
      rw [animateBullets_cons_none b rest es hnone] at hb'
      rcases List.mem_cons.mp hb' with h | h
      · exact ⟨b, List.mem_cons_self b rest, by rw [h]⟩
      · obtain ⟨b0, hb0, hx⟩ := ih b' h
        exact ⟨b0, List.mem_cons_of_mem b hb0, hx⟩
  | case3 b es b1 i hsome =>
      intro b' hb'
      rw [animateBullets_hit_last b es i hsome] at hb'
      simp at hb'
  | case4 b es b1 i hsome es1 c rest2 ih =>
      intro b' hb'
      rw [animateBullets_hit_skip b c rest2 es i hsome] at hb'
      rcases List.mem_cons.mp hb' with h | h
      · exact ⟨c, List.mem_cons_of_mem b (List.mem_cons_self c rest2), by rw [h]⟩
      · obtain ⟨b0, hb0, hx⟩ := ih b' h
        exact ⟨b0, List.mem_cons_of_mem b (List.mem_cons_of_mem c hb0), hx⟩

/-! ## Claim C1: fire cooldown -/

/-- C1.  The claim says fire() creates a projectile iff shoot_cooldown = 0 and
is a no-op on positive cooldown.  The code disagrees: the Ship that GameState
instantiates (game_state.py line 119) has no cooldown field, GameState.shoot
(line 193) appends a bullet unconditionally, and nothing ever calls
DrawablesShip.can_shoot or resets a cooldown.  This theorem evaluates the code:
every call to shoot creates exactly one new live projectile and touches
nothing else, so two calls zero frames apart both create projectiles even
though SHIP_SHOOT_COOLDOWN_FRAMES = 8. -/
theorem shoot_is_unconditional :
    (∀ g : GameState, (g.shoot).bullets.length = g.bullets.length + 1 ∧
      (g.shoot).ship = g.ship ∧ (g.shoot).enemies = g.enemies) ∧
    ∀ weeks : Grid,
      (((GameState.init weeks).shoot).shoot).bullets.length = 2 := by
  constructor
  · intro g
    simp [GameState.shoot]
  · intro weeks
    simp [GameState.shoot, GameState.init]

/-! ## Claim C5: collision resolves in the crossing frame -/

/-- C5.  A state with one live target at (C, r) of health 1 and one live
projectile at column C: in the advanceFrame call in which the projectile row
first reaches or passes r (it was strictly above r before the call and is at
or past r after moving by BULLET_SPEED), the target loses its last health
point and both the target and the projectile are removed from the live sets
within that same call. -/
theorem single_target_killed_in_crossing_frame (sh : Ship) (e : Enemy) (b : Bullet)
    (hx : e.x = b.x) (hh : e.health = 1)
    (hfirst : (e.y : ℚ) < b.y) (hreach : b.y - BULLET_SPEED ≤ (e.y : ℚ)) :
    (GameState.animate ⟨sh, [e], [b]⟩).enemies = [] ∧
    (GameState.animate ⟨sh, [e], [b]⟩).bullets = [] := by
  have hq : qualifies { b with y := b.y - BULLET_SPEED } e = true := by
    simp [qualifies, hx, hreach]
  have hcol : check_collision { b with y := b.y - BULLET_SPEED } [e] = some 0 := by
    simp [check_collision, find_index, hq]
  have hdam : take_damage [e] 0 = [] := by
    simp [take_damage, hh]
  have := animateBullets_hit_last b [e] 0 hcol
  constructor
  · show (animateBullets [b] [e]).2 = []
    rw [this, hdam]
  · show (animateBullets [b] [e]).1 = []
    rw [this]

/-- Witness for C5 at concrete input: target (3, 6, health 1), bullet at
column 3 and row 6.1: one frame later both live sets are empty. -/
theorem single_target_killed_witness :
    (GameState.animate ⟨⟨25, 25⟩, [⟨3, 6, 1⟩], [⟨3, 6.1⟩]⟩).enemies = [] ∧
    (GameState.animate ⟨⟨25, 25⟩, [⟨3, 6, 1⟩], [⟨3, 6.1⟩]⟩).bullets = [] :=
  single_target_killed_in_crossing_frame ⟨25, 25⟩ ⟨3, 6, 1⟩ ⟨3, 6.1⟩ rfl rfl
    (by norm_num) (by norm_num [BULLET_SPEED])

/-! ## Claim C6: every live bullet moves each frame -/

/-- C6.  The claim says every projectile live at the start of an advanceFrame
call moves down by exactly BULLET_SPEED during that call.  The code iterates
over self.bullets while Bullet.animate removes the colliding bullet from that
same list, so the following bullet is skipped by the iterator: in skipState
the bullet at (5, 8) is live at the start of the call yet its row is still
exactly 8 afterwards, not 8 - BULLET_SPEED. -/
theorem bullet_skipped_after_removal :
    (⟨5, 8⟩ : Bullet) ∈ skipState.bullets ∧
    (GameState.animate skipState).bullets = [⟨5, 8⟩] ∧
    (8 : ℚ) ≠ 8 - BULLET_SPEED := by
  refine ⟨by decide, ?_, by norm_num [BULLET_SPEED]⟩
  have hq : qualifies ⟨0, (6.1 : ℚ) - BULLET_SPEED⟩ ⟨0, 6, 1⟩ = true := by
    simp only [qualifies, Bool.and_eq_true, decide_eq_true_eq]
    norm_num [BULLET_SPEED]
  have hcol : check_collision ⟨0, (6.1 : ℚ) - BULLET_SPEED⟩ [⟨0, 6, 1⟩] = some 0 := by
    simp [check_collision, find_index, hq]
  have hdam : take_damage [(⟨0, 6, 1⟩ : Enemy)] 0 = [] := by
    simp [take_damage]
  have hskip := animateBullets_hit_skip ⟨0, 6.1⟩ ⟨5, 8⟩ [] [⟨0, 6, 1⟩] 0 hcol
  show (animateBullets [⟨0, 6.1⟩, ⟨5, 8⟩] [⟨0, 6, 1⟩]).1 = [⟨5, 8⟩]
  rw [hskip, hdam, animateBullets_nil]

/-! ## Claim C9: projectile creation column and row -/

/-- On nonnegative rationals, Python int() truncation agrees with the floor. -/
theorem ratTrunc_eq_floor (q : ℚ) (hq : 0 ≤ q) : ratTrunc q = ⌊q⌋ := by
  rw [ratTrunc, Rat.floor_def]
  exact Int.tdiv_eq_ediv (Rat.num_nonneg.mpr hq) (Int.ofNat_nonneg q.den)

/-- C9 counterexample.  Firing with the ship at x = 24.75 creates the bullet
at column int(24.75) = 24, while the nearest integer to 24.75 is 25: the code
truncates toward zero instead of rounding to the nearest integer. -/
theorem shoot_truncates_not_rounds :
    (midMoveState.shoot).bullets = [⟨24, 9⟩] ∧
    specRound midMoveState.ship.x = 25 ∧ (24 : ℤ) ≠ 25 := by
  have htr : ratTrunc (24.75 : ℚ) = 24 := by
    rw [ratTrunc_eq_floor _ (by norm_num)]
    rw [Int.floor_eq_iff]
    norm_num
  refine ⟨?_, ?_, by decide⟩
  · show [({ x := ratTrunc (24.75 : ℚ), y := (SHIP_POSITION_Y : ℚ) - 1 } : Bullet)] = [⟨24, 9⟩]
    rw [htr]
    norm_num [SHIP_POSITION_Y, NUM_DAYS]
  · show ⌊(24.75 : ℚ) + 1 / 2⌋ = 25
    rw [Int.floor_eq_iff]
    norm_num

/-- C9 amended.  Whenever fire() creates a projectile, its column is the ship
position truncated toward zero, int(ship.x), and its row is
SHIP_POSITION_Y - 1, the row just above the vehicle lane; and across any
advanceFrame call every surviving projectile keeps the column of a projectile
of the previous frame, so a projectile column never changes during its
lifetime. -/
theorem shoot_column_and_row (g : GameState) :
    (g.shoot).bullets =
      g.bullets ++ [{ x := ratTrunc g.ship.x, y := (SHIP_POSITION_Y : ℚ) - 1 }] ∧
    ∀ b' ∈ (GameState.animate g).bullets, ∃ b ∈ g.bullets, b'.x = b.x := by
  constructor
  · rfl
  · intro b' hb'
    exact animateBullets_columns g.bullets g.enemies b' hb'

/-- Witness for C9 amended: a state with one bullet at (7, 5); after the
frame the moved bullet still has column 7, and firing appends a bullet at
the truncated ship column 25 and row 9. -/
theorem shoot_column_and_row_witness :
    ((⟨⟨25, 25⟩, [], [⟨7, 5⟩]⟩ : GameState).shoot).bullets =
      [⟨7, 5⟩] ++ [{ x := 25, y := 9 }] ∧
    ∃ b ∈ [(⟨7, 5⟩ : Bullet)], (⟨7, (5 : ℚ) - BULLET_SPEED⟩ : Bullet).x = b.x := by
  constructor
  · have h := (shoot_column_and_row ⟨⟨25, 25⟩, [], [⟨7, 5⟩]⟩).1
    rw [h]
    have htr : ratTrunc ((25 : ℚ)) = 25 := by
      rw [ratTrunc_eq_floor _ (by norm_num), Int.floor_eq_iff]
      norm_num
    rw [List.append_cancel_left_eq]
    norm_num [htr, SHIP_POSITION_Y, NUM_DAYS]
  · refine (shoot_column_and_row ⟨⟨25, 25⟩, [], [⟨7, 5⟩]⟩).2 ⟨7, (5 : ℚ) - BULLET_SPEED⟩ ?_
    have hnone : check_collision ⟨7, (5 : ℚ) - BULLET_SPEED⟩ ([] : List Enemy) = none := rfl
    have h := animateBullets_cons_none ⟨7, 5⟩ [] [] hnone
    show (⟨7, (5 : ℚ) - BULLET_SPEED⟩ : Bullet) ∈ (animateBullets [⟨7, 5⟩] []).1
    rw [h]
    exact List.mem_cons_self _ _

/-! ## Claim C7: conservation of targets -/

theorem Weaker.rfl : ∀ l : List Enemy, Weaker l l
  | [] => .nil
  | _ :: t => .keep (Eq.refl _) (Eq.refl _) le_rfl (Weaker.rfl t)

theorem Weaker.length_le {l' l : List Enemy} (h : Weaker l' l) :
    l'.length ≤ l.length := by
  induction h with
  | nil => exact le_rfl
  | keep _ _ _ _ ih => exact Nat.succ_le_succ ih
  | drop _ ih => exact Nat.le_succ_of_le ih

theorem Weaker.trans {l1 l2 l3 : List Enemy} (h12 : Weaker l1 l2) (h23 : Weaker l2 l3) :
    Weaker l1 l3 := by
  induction h23 generalizing l1 with
  | nil => exact h12
  | keep hx hy hh _ ih =>
      cases h12 with
      | keep hx2 hy2 hh2 ht2 => exact .keep (hx2.trans hx) (hy2.trans hy) (hh2.trans hh) (ih ht2)
      | drop ht2 => exact .drop (ih ht2)
  | drop _ ih => exact .drop (ih h12)

theorem take_damage_cons (e : Enemy) (t : List Enemy) (i : ℕ) :
    take_damage (e :: t) (i + 1) = e :: take_damage t i := by
  unfold take_damage
  rw [List.get?_cons_succ]
  cases t.get? i with
  | none => rfl
  | some e0 =>
      by_cases h : e0.health - 1 ≤ 0
      · simp [h, List.eraseIdx_cons_succ]
      · simp [h]

theorem weaker_take_damage : ∀ (es : List Enemy) (i : ℕ), Weaker (take_damage es i) es := by
  intro es
  induction es with
  | nil => intro i; exact Weaker.rfl []
  | cons e t ih =>
      intro i
      cases i with
      | zero =>
          by_cases h : e.health - 1 ≤ 0
          · have hz : take_damage (e :: t) 0 = t := by simp [take_damage, h]
            rw [hz]
            exact .drop (Weaker.rfl t)
          · have hz : take_damage (e :: t) 0 = { e with health := e.health - 1 } :: t := by
              simp [take_damage, h]
            rw [hz]
            exact .keep (Eq.refl _) (Eq.refl _)
              (by show e.health - 1 ≤ e.health; omega) (Weaker.rfl t)
      | succ i =>
          rw [take_damage_cons]
          exact .keep (Eq.refl _) (Eq.refl _) le_rfl (ih i)

theorem pos_take_damage {es : List Enemy} (hpos : ∀ e ∈ es, 1 ≤ e.health) (i : ℕ) :
    ∀ e ∈ take_damage es i, 1 ≤ e.health := by
  intro e he
  rcases hg : es[i]? with _ | e0
  · rw [show take_damage es i = es from by simp [take_damage, hg]] at he
    exact hpos e he
  · by_cases h : e0.health - 1 ≤ 0
    · rw [show take_damage es i = es.eraseIdx i from by simp [take_damage, hg, h]] at he
      exact hpos e ((List.eraseIdx_sublist es i).subset he)
    · rw [show take_damage es i = es.set i { e0 with health := e0.health - 1 } from by
        simp [take_damage, hg, h]] at he
      rcases List.mem_or_eq_of_mem_set he with h1 | h1
      · exact hpos e h1
      · rw [h1]
        show (1 : ℤ) ≤ e0.health - 1
        omega

theorem animateBullets_enemies_weaker (bs : List Bullet) (es : List Enemy) :
    Weaker (animateBullets bs es).2 es := by
  induction bs, es using animateBullets.induct with
  | case1 es => exact Weaker.rfl es
  | case2 b rest es b1 hnone ih =>
      rw [animateBullets_cons_none b rest es hnone]
      exact ih
  | case3 b es b1 i hsome =>
      rw [animateBullets_hit_last b es i hsome]
      exact weaker_take_damage es i
  | case4 b es b1 i hsome es1 c rest2 ih =>
      rw [animateBullets_hit_skip b c rest2 es i hsome]
      exact ih.trans (weaker_take_damage es i)

theorem animateBullets_enemies_pos (bs : List Bullet) (es : List Enemy) :
    (∀ e ∈ es, 1 ≤ e.health) → ∀ e ∈ (animateBullets bs es).2, 1 ≤ e.health := by
  induction bs, es using animateBullets.induct with
  | case1 es => exact fun h => h
  | case2 b rest es b1 hnone ih =>
      intro hpos
      rw [animateBullets_cons_none b rest es hnone]
      exact ih hpos
  | case3 b es b1 i hsome =>
      intro hpos
      rw [animateBullets_hit_last b es i hsome]
      exact pos_take_damage hpos i
  | case4 b es b1 i hsome es1 c rest2 ih =>
      intro hpos
      rw [animateBullets_hit_skip b c rest2 es i hsome]
      exact ih (pos_take_damage hpos i)

theorem initDays_pos (wi : ℤ) : ∀ (di : ℤ) (days : List ℤ),
    ∀ e ∈ initDays wi di days, 1 ≤ e.health := by
  intro di days
  induction days generalizing di with
  | nil => intro e he; simp [initDays] at he
  | cons l rest ih =>
      intro e he
      simp only [initDays] at he
      rcases List.mem_append.mp he with h | h
      · by_cases hl : l ≤ 0
        · rw [if_pos hl] at h; simp at h
        · rw [if_neg hl] at h
          simp only [List.mem_singleton] at h
          rw [h]
          show (1 : ℤ) ≤ l
          omega
      · exact ih (di + 1) e h

theorem initEnemies_pos : ∀ (wi : ℤ) (weeks : List (List ℤ)),
    ∀ e ∈ initEnemies wi weeks, 1 ≤ e.health := by
  intro wi weeks
  induction weeks generalizing wi with
  | nil => intro e he; simp [initEnemies] at he
  | cons days rest ih =>
      intro e he
      simp only [initEnemies] at he
      rcases List.mem_append.mp he with h | h
      · exact initDays_pos wi 0 days e h
      · exact ih (wi + 1) e h

/-- C7.  After initialization every enemy has health at least 1, and every
advanceFrame call maps the enemy list to a Weaker list: the length never
grows (so the live-target count only decreases or stays constant), every
surviving enemy descends from an enemy of the previous frame at the same cell
with health that did not increase (so no target is ever created after
construction and no health ever rises), and under the health invariant every
surviving enemy still has health at least 1, meaning any enemy whose health
reached 0 was removed within that same call. -/
theorem targets_conserved :
    (∀ g : GameState,
      (GameState.animate g).enemies.length ≤ g.enemies.length ∧
      Weaker (GameState.animate g).enemies g.enemies) ∧
    (∀ g : GameState, (∀ e ∈ g.enemies, 1 ≤ e.health) →
      ∀ e ∈ (GameState.animate g).enemies, 1 ≤ e.health) ∧
    (∀ weeks : Grid, ∀ e ∈ (GameState.init weeks).enemies, 1 ≤ e.health) := by
  refine ⟨?_, ?_, ?_⟩
  · intro g
    exact ⟨(animateBullets_enemies_weaker g.bullets g.enemies).length_le,
           animateBullets_enemies_weaker g.bullets g.enemies⟩
  · intro g hpos
    exact animateBullets_enemies_pos g.bullets g.enemies hpos
  · intro weeks
    exact initEnemies_pos 0 weeks

/-- Witness for C7 at a concrete state with one enemy of health 3. -/
theorem targets_conserved_witness :
    (GameState.animate ⟨⟨25, 25⟩, [⟨1, 2, 3⟩], []⟩).enemies.length ≤
      (⟨⟨25, 25⟩, [⟨1, 2, 3⟩], []⟩ : GameState).enemies.length ∧
    ∀ e ∈ (GameState.animate ⟨⟨25, 25⟩, [⟨1, 2, 3⟩], []⟩).enemies, 1 ≤ e.health :=
  ⟨(targets_conserved.1 ⟨⟨25, 25⟩, [⟨1, 2, 3⟩], []⟩).1,
   targets_conserved.2.1 ⟨⟨25, 25⟩, [⟨1, 2, 3⟩], []⟩ (by decide)⟩

/-! ## Claim C8: exact arrival and stability of the ship -/

theorem ship_animate_target (s : Ship) : (Ship.animate s).target_x = s.target_x := by
  unfold Ship.animate
  split
  · rfl
  · split <;> rfl

theorem ship_dist_step (s : Ship) :
    |s.target_x - (Ship.animate s).x| = max (|s.target_x - s.x| - SHIP_SPEED) 0 := by
  have hsp : (0 : ℚ) < SHIP_SPEED := by norm_num [SHIP_SPEED]
  unfold Ship.animate
  rcases lt_trichotomy s.x s.target_x with h | h | h
  · rw [if_pos h]
    show |s.target_x - min (s.x + SHIP_SPEED) s.target_x| = _
    rw [abs_of_nonneg (sub_nonneg.mpr h.le)]
    rcases le_total (s.x + SHIP_SPEED) s.target_x with hc | hc
    · rw [min_eq_left hc, abs_of_nonneg (by linarith), max_eq_left (by linarith)]
      ring
    · rw [min_eq_right hc, sub_self, abs_zero, max_eq_right (by linarith)]
  · rw [if_neg (by rw [h]; exact lt_irrefl _), if_neg (by rw [h]; exact lt_irrefl _)]
    rw [h, sub_self, abs_zero, max_eq_right (by linarith)]
  · rw [if_neg (not_lt.mpr h.le), if_pos h]
    show |s.target_x - max (s.x - SHIP_SPEED) s.target_x| = _
    rw [abs_of_nonpos (by linarith [le_max_right (s.x - SHIP_SPEED) s.target_x]),
        abs_of_nonpos (by linarith)]
    rcases le_total (s.x - SHIP_SPEED) s.target_x with hc | hc
    · rw [max_eq_right hc, sub_self, neg_zero, max_eq_right (by linarith)]
    · rw [max_eq_left hc, max_eq_left (by linarith)]
      ring

theorem ship_converge : ∀ (m : ℕ) (s : Ship),
    |s.target_x - s.x| ≤ m * SHIP_SPEED → (Ship.animate^[m] s).x = s.target_x := by
  intro m
  induction m with
  | zero =>
      intro s h
      have h0 : |s.target_x - s.x| ≤ 0 := by simpa using h
      have : s.target_x - s.x = 0 := abs_eq_zero.mp (le_antisymm h0 (abs_nonneg _))
      show s.x = s.target_x
      linarith
  | succ m ih =>
      intro s h
      rw [Function.iterate_succ_apply]
      have hb : |(Ship.animate s).target_x - (Ship.animate s).x| ≤ m * SHIP_SPEED := by
        rw [ship_animate_target, ship_dist_step]
        apply max_le
        · have hcast : ((m + 1 : ℕ) : ℚ) = (m : ℚ) + 1 := by push_cast; ring
          rw [hcast] at h
          norm_num [SHIP_SPEED] at h ⊢
          linarith
        · have h0m : (0 : ℚ) ≤ (m : ℚ) := Nat.cast_nonneg m
          norm_num [SHIP_SPEED]
      rw [ih (Ship.animate s) hb, ship_animate_target]

theorem animate_iterate_ship : ∀ (m : ℕ) (g : GameState),
    (GameState.animate^[m] g).ship = Ship.animate^[m] g.ship := by
  intro m
  induction m with
  | zero => intro g; rfl
  | succ m ih =>
      intro g
      rw [Function.iterate_succ_apply, Function.iterate_succ_apply, ih (GameState.animate g)]
      rfl

/-- C8.  First part: for every state, once at least shipFrames frames have
elapsed with no further move request, the ship position is exactly equal to
its target (this covers both finite-time exact arrival and absence of
oscillation, because it holds for every larger frame count as well).  Second
part: a ship already at its target does not move in an advanceFrame call. -/
theorem ship_reaches_target_exactly :
    (∀ (g : GameState) (m : ℕ), shipFrames g.ship ≤ m →
      (GameState.animate^[m] g).ship.x = g.ship.target_x) ∧
    (∀ g : GameState, g.ship.x = g.ship.target_x →
      (GameState.animate g).ship.x = g.ship.x) := by
  constructor
  · intro g m hm
    rw [animate_iterate_ship]
    apply ship_converge
    have hsp : (0 : ℚ) < SHIP_SPEED := by norm_num [SHIP_SPEED]
    have hce : (0 : ℤ) ≤ ⌈|g.ship.target_x - g.ship.x| / SHIP_SPEED⌉ :=
      Int.ceil_nonneg (div_nonneg (abs_nonneg _) hsp.le)
    have htn : ((shipFrames g.ship : ℕ) : ℚ)
        = ((⌈|g.ship.target_x - g.ship.x| / SHIP_SPEED⌉ : ℤ) : ℚ) := by
      unfold shipFrames
      have h3 := Int.toNat_of_nonneg hce
      calc (((⌈|g.ship.target_x - g.ship.x| / SHIP_SPEED⌉).toNat : ℕ) : ℚ)
          = ((((⌈|g.ship.target_x - g.ship.x| / SHIP_SPEED⌉).toNat : ℕ) : ℤ) : ℚ) := by
            push_cast
            ring
        _ = ((⌈|g.ship.target_x - g.ship.x| / SHIP_SPEED⌉ : ℤ) : ℚ) := by rw [h3]
    have h1 : |g.ship.target_x - g.ship.x| / SHIP_SPEED ≤ (shipFrames g.ship : ℚ) := by
      rw [htn]
      exact Int.le_ceil _
    have h2 : (shipFrames g.ship : ℚ) ≤ (m : ℚ) := by exact_mod_cast hm
    rw [div_le_iff₀ hsp] at h1
    calc |g.ship.target_x - g.ship.x| ≤ (shipFrames g.ship : ℚ) * SHIP_SPEED := h1
      _ ≤ (m : ℚ) * SHIP_SPEED := mul_le_mul_of_nonneg_right h2 hsp.le
  · intro g hx
    show (Ship.animate g.ship).x = g.ship.x
    unfold Ship.animate
    rw [if_neg (by rw [hx]; exact lt_irrefl _), if_neg (by rw [hx]; exact lt_irrefl _)]

/-- Witness for C8: ship at 25 with target 20 reaches exactly 20 after 20
frames of the full advanceFrame step. -/
theorem ship_reaches_target_witness :
    (GameState.animate^[20] (⟨⟨25, 20⟩, [], []⟩ : GameState)).ship.x = 20 := by
  have hframes : shipFrames ⟨25, 20⟩ = 20 := by
    unfold shipFrames
    have h1 : |(20 : ℚ) - 25| = 5 := by
      rw [abs_of_nonpos (by norm_num)]
      norm_num
    rw [h1, show (5 : ℚ) / SHIP_SPEED = 20 from by norm_num [SHIP_SPEED]]
    rw [show ⌈(20 : ℚ)⌉ = 20 from by norm_num]
    rfl
  exact ship_reaches_target_exactly.1 ⟨⟨25, 20⟩, [], []⟩ 20 (le_of_eq hframes)

/-! ## Claim C10: which target a projectile hits -/

theorem qualifies_iff (b : Bullet) (e : Enemy) :
    qualifies b e = true ↔ (e.x = b.x ∧ b.y ≤ (e.y : ℚ)) := by
  simp [qualifies]

theorem find_index_eq_some {p : α → Bool} :
    ∀ {l : List α} {i : ℕ}, find_index p l = some i →
      ∃ a, l.get? i = some a ∧ p a = true ∧
        ∀ j a2, j < i → l.get? j = some a2 → p a2 = false := by
  intro l
  induction l with
  | nil => intro i h; exact Option.noConfusion h
  | cons a t ih =>
      intro i h
      rw [find_index] at h
      by_cases hp : p a = true
      · rw [if_pos hp] at h
        cases h
        exact ⟨a, rfl, hp, fun j a2 hj _ => absurd hj (Nat.not_lt_zero j)⟩
      · rw [if_neg hp] at h
        cases hft : find_index p t with
        | none => rw [hft] at h; simp at h
        | some i0 =>
            rw [hft] at h
            rw [Option.map_some'] at h
            injection h with h
            obtain ⟨a0, hget, hpa, hprev⟩ := ih hft
            refine ⟨a0, ?_, hpa, ?_⟩
            · rw [← h]
              exact hget
            · intro j a2 hj hget2
              cases j with
              | zero =>
                  have ha2 : a2 = a := by
                    rw [List.get?_cons_zero] at hget2
                    exact (Option.some.injEq _ _ ▸ hget2.symm)
                  rw [ha2]
                  simpa using hp
              | succ j0 =>
                  rw [← h] at hj
                  rw [List.get?_cons_succ] at hget2
                  exact hprev j0 a2 (Nat.lt_of_succ_lt_succ hj) hget2

theorem find_index_some_of_mem {p : α → Bool} :
    ∀ {l : List α}, (∃ a ∈ l, p a = true) → ∃ i, find_index p l = some i := by
  intro l
  induction l with
  | nil =>
      rintro ⟨a, ha, _⟩
      simp at ha
  | cons a t ih =>
      rintro ⟨a0, ha0, hp0⟩
      by_cases hp : p a = true
      · exact ⟨0, by simp [find_index, hp]⟩
      · rcases List.mem_cons.mp ha0 with h | h
        · rw [h] at hp0
          exact absurd hp0 hp
        · obtain ⟨i, hi⟩ := ih ⟨a0, h, hp0⟩
          exact ⟨i + 1, by simp [find_index, hp, hi]⟩

/-- C10.  In a frame step of a state with a single live projectile, when some
live target qualifies for collision (same column, row at or past the moved
projectile row), the target that loses health is the first qualifying one in
the live list order; when the list is in creation order (lexicographic on
column then row, as _initialize_enemies produces and removals preserve), that
target has the smallest row among all qualifying targets in that column, the
topmost qualifying one rather than the one nearest the projectile; and that
projectile affects no other target in that frame, the rest of the list being
left exactly as it was. -/
theorem projectile_hits_first_in_creation_order (sh : Ship) (b : Bullet) (es : List Enemy)
    (hsort : es.Pairwise colMajorLt)
    (hex : ∃ e ∈ es, qualifies { b with y := b.y - BULLET_SPEED } e = true) :
    ∃ i e, es.get? i = some e ∧
      check_collision { b with y := b.y - BULLET_SPEED } es = some i ∧
      (∀ j e2, j < i → es.get? j = some e2 →
        qualifies { b with y := b.y - BULLET_SPEED } e2 = false) ∧
      (∀ e2 ∈ es, qualifies { b with y := b.y - BULLET_SPEED } e2 = true → e.y ≤ e2.y) ∧
      (GameState.animate ⟨sh, es, [b]⟩).enemies =
        (if e.health - 1 ≤ 0 then es.eraseIdx i
         else es.set i { e with health := e.health - 1 }) ∧
      (GameState.animate ⟨sh, es, [b]⟩).bullets = [] := by
  obtain ⟨i, hi⟩ := find_index_some_of_mem hex
  obtain ⟨e, hget, hpe, hprev⟩ := find_index_eq_some hi
  refine ⟨i, e, hget, hi, hprev, ?_, ?_, ?_⟩
  · intro e2 he2 hq2
    obtain ⟨hilen, hgeti⟩ := List.get?_eq_some.mp hget
    obtain ⟨⟨j, hjlen⟩, hgetj⟩ := List.mem_iff_get.mp he2
    rcases lt_trichotomy j i with hlt | heq | hgt
    · have hfalse := hprev j e2 hlt (by rw [List.get?_eq_get hjlen, hgetj])
      rw [hq2] at hfalse
      cases hfalse
    · subst heq
      have h1 : es.get? j = some e2 := by rw [List.get?_eq_get hjlen, hgetj]
      rw [hget] at h1
      injection h1 with h1
      rw [← h1]
    · have hij := List.pairwise_iff_get.mp hsort ⟨i, hilen⟩ ⟨j, hjlen⟩ (Fin.mk_lt_mk.mpr hgt)
      rw [hgeti, hgetj] at hij
      rcases hij with hx | ⟨_, hy⟩
      · obtain ⟨hex1, _⟩ := (qualifies_iff _ _).mp hpe
        obtain ⟨hex2, _⟩ := (qualifies_iff _ _).mp hq2
        rw [hex1, hex2] at hx
        exact absurd hx (lt_irrefl _)
      · exact hy.le
  · have h := animateBullets_hit_last b es i hi
    show (animateBullets [b] es).2 = _
    rw [h]
    unfold take_damage
    rw [hget]
  · have h := animateBullets_hit_last b es i hi
    show (animateBullets [b] es).1 = []
    rw [h]

/-- Witness for C10: two targets in column 2 at rows 1 and 4, projectile in
column 2 already past both rows; the theorem applies and names the hit. -/
theorem projectile_hits_first_witness :
    ∃ i e, ([⟨2, 1, 2⟩, ⟨2, 4, 1⟩] : List Enemy).get? i = some e ∧
      check_collision { x := 2, y := (1 : ℚ) - BULLET_SPEED } [⟨2, 1, 2⟩, ⟨2, 4, 1⟩] = some i ∧
      (∀ j e2, j < i → ([⟨2, 1, 2⟩, ⟨2, 4, 1⟩] : List Enemy).get? j = some e2 →
        qualifies { x := 2, y := (1 : ℚ) - BULLET_SPEED } e2 = false) ∧
      (∀ e2 ∈ ([⟨2, 1, 2⟩, ⟨2, 4, 1⟩] : List Enemy),
        qualifies { x := 2, y := (1 : ℚ) - BULLET_SPEED } e2 = true → e.y ≤ e2.y) ∧
      (GameState.animate ⟨⟨25, 25⟩, [⟨2, 1, 2⟩, ⟨2, 4, 1⟩], [⟨2, 1⟩]⟩).enemies =
        (if e.health - 1 ≤ 0 then ([⟨2, 1, 2⟩, ⟨2, 4, 1⟩] : List Enemy).eraseIdx i
         else ([⟨2, 1, 2⟩, ⟨2, 4, 1⟩] : List Enemy).set i { e with health := e.health - 1 }) ∧
      (GameState.animate ⟨⟨25, 25⟩, [⟨2, 1, 2⟩, ⟨2, 4, 1⟩], [⟨2, 1⟩]⟩).bullets = [] :=
  projectile_hits_first_in_creation_order ⟨25, 25⟩ ⟨2, 1⟩ [⟨2, 1, 2⟩, ⟨2, 4, 1⟩]
    (by decide)
    ⟨⟨2, 1, 2⟩, List.mem_cons_self _ _, by
      rw [qualifies_iff]
      exact ⟨rfl, by norm_num [BULLET_SPEED]⟩⟩

/-! ## Claims C2 and C3: the drive-loop runs -/

/-- C2.  The claim asserts that the drive loop terminates with
isComplete() true for every valid grid and every built-in strategy.  The code
fails it for RandomStrategy: on the valid one-target grid grid1 the run
aborts with AttributeError instead of reaching a complete state, because the
animator hands the contribution grid to a generator that dereferences
game_state.enemies on it.  This theorem evaluates the embedded run at that
failing input. -/
theorem random_run_never_completes :
    validGrid grid1 ∧ (GameState.init grid1).enemies ≠ [] ∧
    runAnimator .rand 100000 grid1 rngZero = .error .attributeError := by
  refine ⟨by decide, by decide, rfl⟩

/-- C3.  A drive-loop run is a function of the grid and the strategy alone:
two runs with the same grid and strategy agree for every pair of oracle
streams, at every fuel bound.  For the column and row strategies the plans
are computed from the grid and no randomness exists; for the random strategy
every run deterministically aborts with the same AttributeError before the
first random.choice call, so its outcome does not depend on the stream
either. -/
theorem runs_are_rng_independent (kind : StratKind) (fuel : ℕ) (weeks : Grid)
    (rng1 rng2 : ℕ → ℕ) :
    runAnimator kind fuel weeks rng1 = runAnimator kind fuel weeks rng2 := by
  cases kind <;> rfl

/-! ## Claim C4: the randomized strategy -/

theorem mem_pySet_fold : ∀ (l acc : List ℤ) (a : ℤ),
    (a ∈ l.foldl (fun acc x => if x ∈ acc then acc else acc ++ [x]) acc ↔ a ∈ acc ∨ a ∈ l) := by
  intro l
  induction l with
  | nil =>
      intro acc a
      simp
  | cons x rest ih =>
      intro acc a
      rw [List.foldl_cons]
      by_cases hx : x ∈ acc
      · rw [if_pos hx, ih]
        constructor
        · rintro (h | h)
          · exact Or.inl h
          · exact Or.inr (List.mem_cons_of_mem x h)
        · rintro (h | h)
          · exact Or.inl h
          · rcases List.mem_cons.mp h with h1 | h1
            · rw [h1]; exact Or.inl hx
            · exact Or.inr h1
      · rw [if_neg hx, ih]
        simp only [List.mem_append, List.mem_singleton, List.mem_cons]
        tauto

theorem mem_pySet {l : List ℤ} {a : ℤ} : a ∈ pySet l ↔ a ∈ l := by
  unfold pySet
  rw [mem_pySet_fold]
  simp

theorem maxByY_mem : ∀ (l : List Enemy) (e0 : Enemy),
    maxByY e0 l = e0 ∨ maxByY e0 l ∈ l := by
  intro l
  induction l with
  | nil => intro e0; exact Or.inl rfl
  | cons e rest ih =>
      intro e0
      have hrw : maxByY e0 (e :: rest) = maxByY (if e0.y < e.y then e else e0) rest := rfl
      rw [hrw]
      by_cases h : e0.y < e.y
      · rw [if_pos h]
        rcases ih e with h1 | h1
        · refine Or.inr ?_
          rw [h1]
          exact List.mem_cons_self e rest
        · exact Or.inr (List.mem_cons_of_mem e h1)
      · rw [if_neg h]
        rcases ih e0 with h1 | h1
        · exact Or.inl h1
        · exact Or.inr (List.mem_cons_of_mem e h1)

theorem maxByY_ge : ∀ (l : List Enemy) (e0 e : Enemy),
    e ∈ e0 :: l → e.y ≤ (maxByY e0 l).y := by
  intro l
  induction l with
  | nil =>
      intro e0 e he
      rcases List.mem_cons.mp he with h | h
      · rw [h]; exact le_rfl
      · simp at h
  | cons e1 rest ih =>
      intro e0 e he
      have hrw : maxByY e0 (e1 :: rest) = maxByY (if e0.y < e1.y then e1 else e0) rest := rfl
      rw [hrw]
      by_cases hc : e0.y < e1.y
      · rw [if_pos hc]
        rcases List.mem_cons.mp he with h | h
        · rw [h]
          calc e0.y ≤ e1.y := hc.le
            _ ≤ (maxByY e1 rest).y := ih e1 e1 (List.mem_cons_self _ _)
        · rcases List.mem_cons.mp h with h1 | h1
          · rw [h1]
            exact ih e1 e1 (List.mem_cons_self _ _)
          · exact ih e1 e (List.mem_cons_of_mem _ h1)
      · rw [if_neg hc]
        rcases List.mem_cons.mp he with h | h
        · rw [h]
          exact ih e0 e0 (List.mem_cons_self _ _)
        · rcases List.mem_cons.mp h with h1 | h1
          · rw [h1]
            calc e1.y ≤ e0.y := not_lt.mp hc
              _ ≤ (maxByY e0 rest).y := ih e0 e0 (List.mem_cons_self _ _)
          · exact ih e0 e (List.mem_cons_of_mem _ h1)

/-- C4 counterexample.  The claim, read on the code, says the drive-loop run
of the randomized strategy on grid2 completes and consumes a total number of
fire actions equal to the sum of the initial target healths (2 for grid2).
It is false at this input: the run aborts with AttributeError before any
action is produced, so no completed run with any fire count exists. -/
theorem random_run_emits_no_fires :
    (((initEnemies 0 grid2).map Enemy.health).sum = 2) ∧
    ¬ ∃ out : RunResult, runAnimator .rand 100000 grid2 rngZero = .ok out ∧
        out.fired = (((initEnemies 0 grid2).map Enemy.health).sum).toNat := by
  refine ⟨by decide, ?_⟩
  rintro ⟨out, hout, _⟩
  exact Except.noConfusion hout

/-- C4 amended.  Through the drive loop as wired, every randomized run aborts
with AttributeError and consumes no action at all.  The generator body
itself, applied to the live GameState its signature declares, does target
live cells: whenever enemies remain, each batch it emits consists of exactly
the current health of some live enemy in fire actions at that enemy column,
and that enemy is the bottom-most live enemy of its column. -/
theorem random_strategy_amended :
    (∀ (weeks : Grid) (fuel : ℕ) (rng : ℕ → ℕ),
      runAnimator .rand fuel weeks rng = .error .attributeError) ∧
    (∀ (gs : GameState) (i : ℕ), gs.enemies ≠ [] →
      ∃ e ∈ gs.enemies,
        randomBatch gs i = List.replicate e.health.toNat ⟨e.x, true⟩ ∧
        ∀ e2 ∈ gs.enemies, e2.x = e.x → e2.y ≤ e.y) := by
  constructor
  · intro weeks fuel rng
    rfl
  · intro gs i hne
    cases hcols : columns_with_enemies gs with
    | nil =>
        exfalso
        cases hge : gs.enemies with
        | nil => exact hne hge
        | cons e rest =>
            have hmem : e.x ∈ columns_with_enemies gs := by
              unfold columns_with_enemies
              rw [mem_pySet, hge]
              exact List.mem_map_of_mem Enemy.x (List.mem_cons_self _ _)
            rw [hcols] at hmem
            simp at hmem
    | cons c0 rest =>
        have hlen : i % (c0 :: rest).length < (c0 :: rest).length :=
          Nat.mod_lt _ (by simp)
        have hcolmem : (c0 :: rest).getD (i % (c0 :: rest).length) c0 ∈ c0 :: rest := by
          rw [List.getD_eq_get?, List.get?_eq_get hlen]
          exact List.get_mem _ _ _
        have hcolmem2 : (c0 :: rest).getD (i % (c0 :: rest).length) c0 ∈
            columns_with_enemies gs := by
          rw [hcols]
          exact hcolmem
        have hcolmap : (c0 :: rest).getD (i % (c0 :: rest).length) c0 ∈
            gs.enemies.map Enemy.x := by
          rw [← mem_pySet]
          exact hcolmem2
        obtain ⟨e1, he1, hex1⟩ := List.mem_map.mp hcolmap
        have he1f : e1 ∈ gs.enemies.filter
            (fun e => decide (e.x = (c0 :: rest).getD (i % (c0 :: rest).length) c0)) :=
          List.mem_filter.mpr ⟨he1, by simp [hex1]⟩
        cases hfil : gs.enemies.filter
            (fun e => decide (e.x = (c0 :: rest).getD (i % (c0 :: rest).length) c0)) with
        | nil =>
            exfalso
            rw [hfil] at he1f
            simp at he1f
        | cons e0 es =>
            have hchosen_mem_f : maxByY e0 es ∈ gs.enemies.filter
                (fun e => decide (e.x = (c0 :: rest).getD (i % (c0 :: rest).length) c0)) := by
              rw [hfil]
              rcases maxByY_mem es e0 with h1 | h1
              · rw [h1]; exact List.mem_cons_self _ _
              · exact List.mem_cons_of_mem _ h1
            obtain ⟨hchosen_mem, hchosen_dec⟩ := List.mem_filter.mp hchosen_mem_f
            have hchosenx : (maxByY e0 es).x = (c0 :: rest).getD (i % (c0 :: rest).length) c0 :=
              of_decide_eq_true hchosen_dec
            refine ⟨maxByY e0 es, hchosen_mem, ?_, ?_⟩
            · show randomBatch gs i = _
              unfold randomBatch
              rw [hcols]
              show (match gs.enemies.filter
                  (fun e => decide (e.x = (c0 :: rest).getD (i % (c0 :: rest).length) c0)) with
                | [] => ([] : List Action)
                | e0 :: es =>
                    List.replicate ((maxByY e0 es).health).toNat
                      ⟨(c0 :: rest).getD (i % (c0 :: rest).length) c0, true⟩) = _
              rw [hfil, hchosenx]
            · intro e2 he2 hx2
              have he2f : e2 ∈ gs.enemies.filter
                  (fun e => decide (e.x = (c0 :: rest).getD (i % (c0 :: rest).length) c0)) :=
                List.mem_filter.mpr ⟨he2, by simp [hx2, hchosenx]⟩
              rw [hfil] at he2f
              exact maxByY_ge es e0 e2 he2f

/-- Witness for C4 amended at a concrete state with two enemies in column 3:
the batch targets the bottom-most one (row 5) with its full health. -/
theorem random_strategy_amended_witness :
    ∃ e ∈ (⟨⟨25, 25⟩, [⟨3, 2, 2⟩, ⟨3, 5, 1⟩], []⟩ : GameState).enemies,
      randomBatch ⟨⟨25, 25⟩, [⟨3, 2, 2⟩, ⟨3, 5, 1⟩], []⟩ 0 =
        List.replicate e.health.toNat ⟨e.x, true⟩ ∧
      ∀ e2 ∈ (⟨⟨25, 25⟩, [⟨3, 2, 2⟩, ⟨3, 5, 1⟩], []⟩ : GameState).enemies,
        e2.x = e.x → e2.y ≤ e.y :=
  random_strategy_amended.2 ⟨⟨25, 25⟩, [⟨3, 2, 2⟩, ⟨3, 5, 1⟩], []⟩ 0 (by decide)

end SpaceShooter
